import Mathlib

/-!
Shallow embedding of the data-lake ETL pipeline (`etl.py`).

The pipeline reads a song catalog and an activity log (JSON with fixed
schemas), and produces five tables: songs, artists, users, time, songplays.
Rows are modelled as Lean structures with one field per selected column;
dataframes are lists of rows.  `dropDuplicates(subset=ks)` is modelled as
first-occurrence deduplication on the key tuple (Spark keeps an arbitrary
row per key; first-seen is the deterministic choice documented here).
Float-typed columns (latitude, longitude, duration) are carried opaquely as
rationals: the pipeline never computes with them.  Nullable schema fields
are modelled as total fields: no claim depends on null inputs, and the only
nulls the pipeline itself introduces — the unmatched side of the left join —
are modelled with `Option`.

Timestamps: the `get_timestamp` udf is
`datetime.fromtimestamp(ts / 1000)`, a local-timezone wall-clock
conversion; the embedding threads an explicit timezone offset `tz`
(seconds east of UTC), so the local clock reading of an event is
`ts / 1000 + tz` seconds since the local epoch.  Calendar decomposition
uses floor division (`Int.ediv`), matching the conversion on the
nonnegative epochs the pipeline sees.  `date_format` patterns "y", "M",
"w", "d", "F" are unpadded decimal renderings of year, month,
week-of-year (GregorianCalendar defaults: weeks start Sunday, week 1
contains Jan 1), day-of-month and day-of-week-in-month; `hour` is the
integer-valued hour function.

`monotonically_increasing_id` is modelled by numbering the joined rows
with an engine-chosen strictly monotone id assignment `idOf : Nat → Nat`
applied to consecutive positions: the ids are monotone and unique but,
as Spark documents, not stable from one run to the next.
-/

namespace DataLake

/-- Generic flattening map, the list form of a dataframe join's row expansion. -/
def concatMap (f : α → List β) : List α → List β
  | [] => []
  | x :: xs => f x ++ concatMap f xs

/-- First-occurrence deduplication on a key, with an accumulator of keys
already kept: the model of `dropDuplicates(subset=...)`. -/
def dedupByAux [DecidableEq κ] (key : α → κ) (seen : List κ) : List α → List α
  | [] => []
  | x :: xs =>
    if key x ∈ seen then dedupByAux key seen xs
    else x :: dedupByAux key (key x :: seen) xs

/-- `dropDuplicates(subset=...)`: keep the first row seen for each key value. -/
def dedupBy [DecidableEq κ] (key : α → κ) (l : List α) : List α :=
  dedupByAux key [] l

/-- Insert into a sorted list, keeping earlier elements first on ties. -/
def insertLe (le : α → α → Bool) (x : α) : List α → List α
  | [] => [x]
  | y :: ys => if le x y then x :: y :: ys else y :: insertLe le x ys

/-- Stable insertion sort: the model of `orderBy`. -/
def sortByLe (le : α → α → Bool) : List α → List α
  | [] => []
  | x :: xs => insertLe le x (sortByLe le xs)

/-- One catalog record, per the fixed song schema of `process_song_data`. -/
structure SongRecord where
  artist_id : String
  artist_latitude : Rat
  artist_location : String
  artist_longitude : Rat
  artist_name : String
  duration : Rat
  num_songs : Int
  song_id : String
  title : String
  year : Int
deriving DecidableEq

/-- One activity-log record, per the fixed log schema of `process_log_data`. -/
structure LogRecord where
  artist : String
  auth : String
  firstName : String
  gender : String
  itemInSession : Int
  lastName : String
  level : String
  location : String
  method : String
  page : String
  registration : Int
  sessionId : Int
  song : String
  status : Int
  ts : Int
  userAgent : String
  userId : Int
deriving DecidableEq

/-- A songs-table row: `select('song_id','artist_id','title','year','duration')`. -/
structure SongRow where
  song_id : String
  artist_id : String
  title : String
  year : Int
  duration : Rat
deriving DecidableEq

/-- The songs-table projection of a catalog record. -/
def projSongRow (r : SongRecord) : SongRow :=
  ⟨r.song_id, r.artist_id, r.title, r.year, r.duration⟩

/-- Songs table: project, then `dropDuplicates(subset=["song_id","artist_id"])`. -/
def songs_table (catalog : List SongRecord) : List SongRow :=
  dedupBy (fun s => (s.song_id, s.artist_id)) (catalog.map projSongRow)

/-- An artists-table row: the six selected artist columns. -/
structure ArtistRow where
  artist_id : String
  artist_name : String
  artist_location : String
  artist_latitude : Rat
  artist_longitude : Rat
  num_songs : Int
deriving DecidableEq

/-- The artists-table projection of a catalog record. -/
def projArtistRow (r : SongRecord) : ArtistRow :=
  ⟨r.artist_id, r.artist_name, r.artist_location, r.artist_latitude,
    r.artist_longitude, r.num_songs⟩

/-- Artists table: project, `orderBy('artist_id')`, then
`dropDuplicates(subset=["artist_id"])`. -/
def artists_table (catalog : List SongRecord) : List ArtistRow :=
  dedupBy (fun a => a.artist_id)
    (sortByLe (fun a b => a.artist_id ≤ b.artist_id) (catalog.map projArtistRow))

/-- The `page == 'NextSong'` filter applied to the log dataframe: every
downstream log-side table derives from this filtered set. -/
def nextSongEvents (logs : List LogRecord) : List LogRecord :=
  logs.filter (fun e => decide (e.page = "NextSong"))

/-- A users-table row: the five selected user columns. -/
structure UserRow where
  userId : Int
  firstName : String
  lastName : String
  gender : String
  level : String
deriving DecidableEq

/-- The users-table projection of a log record. -/
def projUserRow (e : LogRecord) : UserRow :=
  ⟨e.userId, e.firstName, e.lastName, e.gender, e.level⟩

/-- Users table: project the NextSong-filtered events, then
`dropDuplicates(subset=['userId'])`. -/
def users_table (logs : List LogRecord) : List UserRow :=
  dedupBy (fun u => u.userId) ((nextSongEvents logs).map projUserRow)

/-- Local-clock seconds since the epoch of an epoch-millisecond timestamp,
for a timezone `tz` seconds east of UTC: `datetime.fromtimestamp(ts/1000)`. -/
def localSecs (tz ts : Int) : Int :=
  Int.ediv ts 1000 + tz

/-- Local-calendar day number (days since 1970-01-01 on the local clock). -/
def epochDay (tz ts : Int) : Int :=
  Int.ediv (localSecs tz ts) 86400

/-- The hour column: hour-of-day of the local timestamp. -/
def hourOf (tz ts : Int) : Int :=
  Int.ediv (Int.emod (localSecs tz ts) 86400) 3600

/-- Proleptic-Gregorian (year, month, day) of a day number
(days since 1970-01-01), by the standard era decomposition. -/
def civilFromDays (z0 : Int) : Int × Int × Int :=
  let z := z0 + 719468
  let era := Int.ediv z 146097
  let doe := z - era * 146097
  let yoe := Int.ediv (doe - Int.ediv doe 1460 + Int.ediv doe 36524 - Int.ediv doe 146096) 365
  let y := yoe + era * 400
  let doy := doe - (365 * yoe + Int.ediv yoe 4 - Int.ediv yoe 100)
  let mp := Int.ediv (5 * doy + 2) 153
  let d := doy - Int.ediv (153 * mp + 2) 5 + 1
  let m := mp + (if mp < 10 then 3 else -9)
  (y + (if m ≤ 2 then 1 else 0), m, d)

/-- Day number (days since 1970-01-01) of a proleptic-Gregorian date. -/
def daysFromCivil (y0 m d : Int) : Int :=
  let y := if m ≤ 2 then y0 - 1 else y0
  let era := Int.ediv y 400
  let yoe := y - era * 400
  let doy := Int.ediv (153 * (m + (if 2 < m then -3 else 9)) + 2) 5 + d - 1
  let doe := yoe * 365 + Int.ediv yoe 4 - Int.ediv yoe 100 + doy
  era * 146097 + doe - 719468

/-- The year column of the time table, as a number. -/
def yearOf (tz ts : Int) : Int :=
  (civilFromDays (epochDay tz ts)).1

/-- The month column of the time table, as a number. -/
def monthOf (tz ts : Int) : Int :=
  (civilFromDays (epochDay tz ts)).2.1

/-- The day-of-month column of the time table, as a number. -/
def dayOf (tz ts : Int) : Int :=
  (civilFromDays (epochDay tz ts)).2.2

/-- Day of week of a day number, Sunday = 0 (1970-01-01 was a Thursday). -/
def weekdaySunday0 (day : Int) : Int :=
  Int.emod (day + 4) 7

/-- Week of year per `date_format(.., "w")` under GregorianCalendar
defaults: weeks start on Sunday and week 1 is the week containing Jan 1. -/
def weekOfYearOf (tz ts : Int) : Int :=
  let d := epochDay tz ts
  let jan1 := daysFromCivil (yearOf tz ts) 1 1
  Int.ediv (d - jan1 + weekdaySunday0 jan1) 7 + 1

/-- Day-of-week-in-month per `date_format(.., "F")` (e.g. 2 on the second
Friday of the month). -/
def dayOfWeekInMonthOf (tz ts : Int) : Int :=
  Int.ediv (dayOf tz ts - 1) 7 + 1

/-- A time-table row.  The `datetime` column keeps full millisecond
precision as local epoch milliseconds.  `hour` is integer-valued
(Spark's `hour`); year, month, week, day, weekday are the string
results of `date_format`. -/
structure TimeRow where
  ts : Int
  datetimeMs : Int
  hour : Int
  year : String
  month : String
  week : String
  day : String
  weekday : String
deriving DecidableEq

/-- Derive one time-table row from a (deduplicated) ts value: the
`withColumn` chain of lines 124-130 of `etl.py`. -/
def mkTimeRow (tz ts : Int) : TimeRow :=
  { ts := ts
    datetimeMs := ts + tz * 1000
    hour := hourOf tz ts
    year := toString (yearOf tz ts)
    month := toString (monthOf tz ts)
    week := toString (weekOfYearOf tz ts)
    day := toString (dayOf tz ts)
    weekday := toString (dayOfWeekInMonthOf tz ts) }

/-- Time table: `select('ts').dropDuplicates()` on the NextSong events,
then per-row derivation of the calendar columns. -/
def time_table (tz : Int) (logs : List LogRecord) : List TimeRow :=
  (dedupBy (fun t => t) ((nextSongEvents logs).map (fun e => e.ts))).map (mkTimeRow tz)

/-- The left join of line 139: each NextSong event against the songs table
on `df.song == song_df.song_id` (the log's free-text song name against the
catalog's song_id column).  An event with no match yields one pair with
`none`; an event with matches yields one pair per matching song row. -/
def leftJoinSongs (events : List LogRecord) (songs : List SongRow) :
    List (LogRecord × Option SongRow) :=
  concatMap (fun e =>
    match songs.filter (fun s => decide (e.song = s.song_id)) with
    | [] => [(e, none)]
    | m :: ms => (m :: ms).map (fun s => (e, some s))) events

/-- A songplays candidate row (before the time join): the projection of
line 145; song_id and artist_id are null when the left join found no match. -/
structure SongplayRow where
  songplay_id : Nat
  start_time : Int
  user_id : Int
  level : String
  song_id : Option String
  artist_id : Option String
  session_id : Int
  location : String
  user_agent : String
deriving DecidableEq

/-- Build one songplays candidate from a joined pair and its synthetic id. -/
def mkSongplayRow (idx : Nat) (e : LogRecord) (o : Option SongRow) : SongplayRow :=
  { songplay_id := idx
    start_time := e.ts
    user_id := e.userId
    level := e.level
    song_id := o.map (fun s => s.song_id)
    artist_id := o.map (fun s => s.artist_id)
    session_id := e.sessionId
    location := e.location
    user_agent := e.userAgent }

/-- Number the joined pairs at consecutive positions `i, i+1, ...`, passing
each position through the engine's id assignment `idOf`
(`monotonically_increasing_id`). -/
def numberFrom (idOf : Nat → Nat) (i : Nat) :
    List (LogRecord × Option SongRow) → List SongplayRow
  | [] => []
  | p :: ps => mkSongplayRow (idOf i) p.1 p.2 :: numberFrom idOf (i + 1) ps

/-- The songplays candidates: left join, synthetic id, projection
(lines 139-145). -/
def songplaysCandidates (idOf : Nat → Nat) (events : List LogRecord)
    (songs : List SongRow) : List SongplayRow :=
  numberFrom idOf 0 (leftJoinSongs events songs)

/-- A final songplays row, with the year and month columns taken from the
joined time-table row (string-valued, as `date_format` produced them). -/
structure SongplayFinalRow where
  songplay_id : Nat
  start_time : Int
  user_id : Int
  level : String
  song_id : Option String
  artist_id : Option String
  session_id : Int
  location : String
  user_agent : String
  year : String
  month : String
deriving DecidableEq

/-- Attach a time-table row's year and month to a candidate. -/
def finalRow (r : SongplayRow) (t : TimeRow) : SongplayFinalRow :=
  { songplay_id := r.songplay_id
    start_time := r.start_time
    user_id := r.user_id
    level := r.level
    song_id := r.song_id
    artist_id := r.artist_id
    session_id := r.session_id
    location := r.location
    user_agent := r.user_agent
    year := t.year
    month := t.month }

/-- The inner join of line 148: candidates against the time table on
`songplays.start_time == time_table.ts`; candidates with no time match
are dropped, one output row per matching time row. -/
def innerJoinTime (cands : List SongplayRow) (trows : List TimeRow) :
    List SongplayFinalRow :=
  concatMap (fun r =>
    (trows.filter (fun t => decide (r.start_time = t.ts))).map (finalRow r)) cands

/-- The songplays table (lines 139-148), with the songs table read back
from storage exactly as written by `process_song_data`. -/
def songplays_table (tz : Int) (idOf : Nat → Nat) (catalog : List SongRecord)
    (logs : List LogRecord) : List SongplayFinalRow :=
  innerJoinTime (songplaysCandidates idOf (nextSongEvents logs) (songs_table catalog))
    (time_table tz logs)

/-- The five output tables of one pipeline run. -/
structure Output where
  songs : List SongRow
  artists : List ArtistRow
  users : List UserRow
  time : List TimeRow
  songplays : List SongplayFinalRow
deriving DecidableEq

/-- One full pipeline run (`main`): `process_song_data` then
`process_log_data`, writing every table with full-overwrite semantics, so
each output is exactly the freshly derived table. -/
def pipeline (tz : Int) (idOf : Nat → Nat) (catalog : List SongRecord)
    (logs : List LogRecord) : Output :=
  { songs := songs_table catalog
    artists := artists_table catalog
    users := users_table logs
    time := time_table tz logs
    songplays := songplays_table tz idOf catalog logs }

/-- The identity of a songplays candidate minus its synthetic id: the
columns that are a function of the event and the joined song row alone. -/
structure CandCore where
  start_time : Int
  user_id : Int
  level : String
  song_id : Option String
  artist_id : Option String
  session_id : Int
  location : String
  user_agent : String
deriving DecidableEq

/-- Forget the synthetic id of a candidate row. -/
def candCore (r : SongplayRow) : CandCore :=
  ⟨r.start_time, r.user_id, r.level, r.song_id, r.artist_id, r.session_id,
    r.location, r.user_agent⟩

/-- The identity of a final songplays row minus its synthetic id. -/
structure SongplayCore where
  start_time : Int
  user_id : Int
  level : String
  song_id : Option String
  artist_id : Option String
  session_id : Int
  location : String
  user_agent : String
  year : String
  month : String
deriving DecidableEq

/-- Forget the synthetic id of a final songplays row. -/
def dropId (r : SongplayFinalRow) : SongplayCore :=
  ⟨r.start_time, r.user_id, r.level, r.song_id, r.artist_id, r.session_id,
    r.location, r.user_agent, r.year, r.month⟩

/-! ### Concrete scenario inputs -/

/-- The single catalog record of the end-to-end scenario. -/
def c1Song : SongRecord :=
  { artist_id := "A1", artist_latitude := 0, artist_location := "Loc A"
    artist_longitude := 0, artist_name := "Artist A", duration := 200
    num_songs := 1, song_id := "S1", title := "Song A", year := 2000 }

/-- The single log record of the end-to-end scenario. -/
def c1Log : LogRecord :=
  { artist := "Artist A", auth := "Logged In", firstName := "F", gender := "W"
    itemInSession := 0, lastName := "L", level := "free", location := "City"
    method := "PUT", page := "NextSong", registration := 0, sessionId := 1
    song := "Song A", status := 200, ts := 1541121934796, userAgent := "UA"
    userId := 8 }

/-- A catalog record whose song_id is the text "S" under artist "A". -/
def dupSongA : SongRecord := { c1Song with song_id := "S", artist_id := "A" }

/-- A catalog record with the same song_id "S" but a different artist "B":
both survive the (song_id, artist_id) deduplication. -/
def dupSongB : SongRecord := { c1Song with song_id := "S", artist_id := "B" }

/-- A play event whose free-text song field equals the shared song_id "S",
so the line-139 join predicate matches both catalog rows. -/
def dupLog : LogRecord := { c1Log with song := "S" }

/-! ### List-level lemmas -/

theorem mem_concatMap {f : α → List β} {b : β} :
    ∀ {l : List α}, b ∈ concatMap f l ↔ ∃ a, a ∈ l ∧ b ∈ f a := by
  intro l
  induction l with
  | nil => simp [concatMap]
  | cons x xs ih =>
    simp only [concatMap, List.mem_append, ih, List.mem_cons]
    constructor
    · rintro (h | ⟨a, ha, hb⟩)
      · exact ⟨x, Or.inl rfl, h⟩
      · exact ⟨a, Or.inr ha, hb⟩
    · rintro ⟨a, (rfl | ha), hb⟩
      · exact Or.inl hb
      · exact Or.inr ⟨a, ha, hb⟩

theorem length_concatMap (f : α → List β) :
    ∀ l : List α, (concatMap f l).length = (l.map (fun a => (f a).length)).sum := by
  intro l
  induction l with
  | nil => rfl
  | cons x xs ih => simp [concatMap, ih]

theorem mem_dedupByAux [DecidableEq κ] (key : α → κ) :
    ∀ (seen : List κ) (l : List α) (a : α),
      a ∈ dedupByAux key seen l → a ∈ l ∧ key a ∉ seen := by
  intro seen l
  induction l generalizing seen with
  | nil => intro a h; simp [dedupByAux] at h
  | cons x xs ih =>
    intro a h
    simp only [dedupByAux] at h
    by_cases hx : key x ∈ seen
    · rw [if_pos hx] at h
      rcases ih seen a h with ⟨h1, h2⟩
      exact ⟨List.mem_cons_of_mem _ h1, h2⟩
    · rw [if_neg hx] at h
      rcases List.mem_cons.mp h with rfl | h
      · exact ⟨List.mem_cons_self _ _, hx⟩
      · rcases ih _ a h with ⟨h1, h2⟩
        rw [List.mem_cons] at h2
        push_neg at h2
        exact ⟨List.mem_cons_of_mem _ h1, h2.2⟩

theorem pairwise_dedupByAux [DecidableEq κ] (key : α → κ) :
    ∀ (seen : List κ) (l : List α),
      (dedupByAux key seen l).Pairwise (fun a b => key a ≠ key b) := by
  intro seen l
  induction l generalizing seen with
  | nil => exact List.Pairwise.nil
  | cons x xs ih =>
    simp only [dedupByAux]
    by_cases hx : key x ∈ seen
    · rw [if_pos hx]; exact ih seen
    · rw [if_neg hx]
      refine List.Pairwise.cons ?_ (ih _)
      intro b hb
      have h2 := (mem_dedupByAux key _ _ b hb).2
      rw [List.mem_cons] at h2
      push_neg at h2
      exact fun he => h2.1 (he ▸ rfl)

theorem exists_key_dedupByAux [DecidableEq κ] (key : α → κ) :
    ∀ (seen : List κ) (l : List α) (a : α), a ∈ l →
      key a ∈ seen ∨ ∃ b, b ∈ dedupByAux key seen l ∧ key b = key a := by
  intro seen l
  induction l generalizing seen with
  | nil => intro a h; exact absurd h (List.not_mem_nil a)
  | cons x xs ih =>
    intro a h
    simp only [dedupByAux]
    by_cases hx : key x ∈ seen
    · rw [if_pos hx]
      rcases List.mem_cons.mp h with rfl | h
      · exact Or.inl hx
      · exact ih seen a h
    · rw [if_neg hx]
      rcases List.mem_cons.mp h with rfl | h
      · exact Or.inr ⟨a, List.mem_cons_self _ _, rfl⟩
      · rcases ih (key x :: seen) a h with hmem | ⟨b, hb, hkb⟩
        · rcases List.mem_cons.mp hmem with he | hs
          · exact Or.inr ⟨x, List.mem_cons_self _ _, he.symm⟩
          · exact Or.inl hs
        · exact Or.inr ⟨b, List.mem_cons_of_mem _ hb, hkb⟩

theorem filter_key_dedupByAux_of_seen [DecidableEq κ] (key : α → κ) (k : κ) :
    ∀ (seen : List κ) (l : List α), k ∈ seen →
      (dedupByAux key seen l).filter (fun b => decide (key b = k)) = [] := by
  intro seen l hk
  rw [List.filter_eq_nil_iff]
  intro b hb
  have h2 := (mem_dedupByAux key _ _ b hb).2
  simp only [decide_eq_true_eq]
  exact fun he => h2 (he ▸ hk)

theorem length_filter_key_dedupByAux [DecidableEq κ] (key : α → κ) (k : κ) :
    ∀ (seen : List κ) (l : List α), k ∉ seen → (∃ a, a ∈ l ∧ key a = k) →
      ((dedupByAux key seen l).filter (fun b => decide (key b = k))).length = 1 := by
  intro seen l
  induction l generalizing seen with
  | nil => rintro _ ⟨a, ha, _⟩; exact absurd ha (List.not_mem_nil a)
  | cons x xs ih =>
    rintro hk ⟨a, ha, hka⟩
    simp only [dedupByAux]
    by_cases hx : key x ∈ seen
    · rw [if_pos hx]
      rcases List.mem_cons.mp ha with rfl | ha
      · exact absurd (hka ▸ hx) hk
      · exact ih seen hk ⟨a, ha, hka⟩
    · rw [if_neg hx]
      by_cases hxk : key x = k
      · rw [List.filter_cons_of_pos (by simpa using hxk),
          filter_key_dedupByAux_of_seen key k _ xs (by simp [hxk])]
        rfl
      · rw [List.filter_cons_of_neg (by simpa using hxk)]
        rcases List.mem_cons.mp ha with rfl | ha
        · exact absurd hka hxk
        · refine ih (key x :: seen) ?_ ⟨a, ha, hka⟩
          rw [List.mem_cons]
          push_neg
          exact ⟨fun he => hxk he.symm, hk⟩

theorem mem_dedupBy [DecidableEq κ] (key : α → κ) (l : List α) (a : α) :
    a ∈ dedupBy key l → a ∈ l :=
  fun h => (mem_dedupByAux key [] l a h).1

theorem pairwise_dedupBy [DecidableEq κ] (key : α → κ) (l : List α) :
    (dedupBy key l).Pairwise (fun a b => key a ≠ key b) :=
  pairwise_dedupByAux key [] l

theorem exists_key_dedupBy [DecidableEq κ] (key : α → κ) (l : List α) (a : α)
    (h : a ∈ l) : ∃ b, b ∈ dedupBy key l ∧ key b = key a := by
  rcases exists_key_dedupByAux key [] l a h with hs | hb
  · exact absurd hs (List.not_mem_nil _)
  · exact hb

theorem length_filter_key_dedupBy [DecidableEq κ] (key : α → κ) (l : List α)
    (k : κ) (h : ∃ a, a ∈ l ∧ key a = k) :
    ((dedupBy key l).filter (fun b => decide (key b = k))).length = 1 :=
  length_filter_key_dedupByAux key k [] l (List.not_mem_nil k) h

theorem length_filter_map_list (f : α → β) (p : β → Bool) :
    ∀ l : List α, ((l.map f).filter p).length = (l.filter (fun a => p (f a))).length := by
  intro l
  induction l with
  | nil => rfl
  | cons x xs ih =>
    simp only [List.map_cons, List.filter]
    cases p (f x) <;> simp [ih]

theorem filter_decide_eq_comm [DecidableEq α] (k : α) (key : β → α) :
    ∀ l : List β, l.filter (fun b => decide (k = key b))
      = l.filter (fun b => decide (key b = k)) := by
  intro l
  induction l with
  | nil => rfl
  | cons x xs ih =>
    simp only [List.filter]
    by_cases h : key x = k
    · simp [h, ih]
    · rw [decide_eq_false h, decide_eq_false (fun he => h he.symm), ih]

/-! ### Table-level lemmas -/

theorem mem_time_table_elim (tz : Int) (logs : List LogRecord) (row : TimeRow)
    (h : row ∈ time_table tz logs) :
    (∃ e, e ∈ nextSongEvents logs ∧ e.ts = row.ts) ∧ row = mkTimeRow tz row.ts := by
  rcases List.mem_map.mp h with ⟨t, ht, rfl⟩
  have ht' := mem_dedupBy _ _ _ ht
  rcases List.mem_map.mp ht' with ⟨e, he, rfl⟩
  exact ⟨⟨e, he, rfl⟩, rfl⟩

theorem time_table_complete (tz : Int) (logs : List LogRecord) (e : LogRecord)
    (he : e ∈ nextSongEvents logs) :
    ∃ row, row ∈ time_table tz logs ∧ row.ts = e.ts := by
  have hm : e.ts ∈ (nextSongEvents logs).map (fun e => e.ts) :=
    List.mem_map_of_mem _ he
  rcases exists_key_dedupBy (fun t => t) _ _ hm with ⟨b, hb, hkb⟩
  exact ⟨mkTimeRow tz b, List.mem_map_of_mem _ hb, hkb⟩

theorem time_table_pairwise (tz : Int) (logs : List LogRecord) :
    (time_table tz logs).Pairwise (fun a b => a.ts ≠ b.ts) := by
  unfold time_table
  rw [List.pairwise_map]
  exact pairwise_dedupBy (fun t => t) _

theorem length_filter_time_table (tz : Int) (logs : List LogRecord) (s : Int)
    (h : ∃ e, e ∈ nextSongEvents logs ∧ e.ts = s) :
    ((time_table tz logs).filter (fun t => decide (s = t.ts))).length = 1 := by
  have key : ∀ d : List Int,
      ((d.map (mkTimeRow tz)).filter (fun t => decide (s = t.ts))).length
        = (d.filter (fun b => decide (b = s))).length := by
    intro d
    induction d with
    | nil => rfl
    | cons x xs ih =>
      simp only [List.map_cons, List.filter]
      have hd : (decide (s = (mkTimeRow tz x).ts)) = (decide (x = s)) := by
        simp [mkTimeRow, eq_comm]
      rw [hd]
      cases decide (x = s) <;> simp [ih]
  unfold time_table
  rw [key]
  refine length_filter_key_dedupBy (fun t => t) _ s ?_
  rcases h with ⟨e, he, hts⟩
  exact ⟨e.ts, List.mem_map_of_mem _ he, hts⟩

theorem length_leftJoinSongs (songs : List SongRow) :
    ∀ events : List LogRecord, (leftJoinSongs events songs).length
      = (events.map (fun e =>
          max 1 ((songs.filter (fun s => decide (e.song = s.song_id))).length))).sum := by
  intro events
  induction events with
  | nil => rfl
  | cons e es ih =>
    simp only [leftJoinSongs, concatMap] at *
    rw [List.length_append, ih, List.map_cons, List.sum_cons]
    congr 1
    cases hms : songs.filter (fun s => decide (e.song = s.song_id)) with
    | nil => simp [hms]
    | cons m ms =>
      simp [hms, Nat.max_eq_right (Nat.succ_le_succ (Nat.zero_le _))]

theorem mem_leftJoinSongs (events : List LogRecord) (songs : List SongRow)
    (p : LogRecord × Option SongRow) (hp : p ∈ leftJoinSongs events songs) :
    p.1 ∈ events ∧
      (p.2 = none → ∀ s, s ∈ songs → ¬ (p.1.song = s.song_id)) ∧
      (∀ s, p.2 = some s → s ∈ songs ∧ p.1.song = s.song_id) := by
  rcases mem_concatMap.mp hp with ⟨e, he, hb⟩
  cases hms : songs.filter (fun s => decide (e.song = s.song_id)) with
  | nil =>
    rw [hms] at hb
    simp only [List.mem_singleton] at hb
    subst hb
    refine ⟨he, fun _ s hs hsong => ?_, fun s hsome => by simp at hsome⟩
    have := List.filter_eq_nil_iff.mp hms s hs
    simp only [decide_eq_true_eq] at this
    exact this hsong
  | cons m ms =>
    rw [hms] at hb
    rcases List.mem_map.mp hb with ⟨s, hs, rfl⟩
    have hs' : s ∈ songs.filter (fun s => decide (e.song = s.song_id)) := hms ▸ hs
    rw [List.mem_filter, decide_eq_true_eq] at hs'
    exact ⟨he, fun hnone => by simp at hnone,
      fun s' hsome => by
        simp only [Option.some.injEq] at hsome
        exact hsome ▸ hs'⟩

theorem leftJoinSongs_none_mem (events : List LogRecord) (songs : List SongRow)
    (e : LogRecord) (he : e ∈ events)
    (hno : songs.filter (fun s => decide (e.song = s.song_id)) = []) :
    (e, (none : Option SongRow)) ∈ leftJoinSongs events songs := by
  refine mem_concatMap.mpr ⟨e, he, ?_⟩
  rw [hno]
  exact List.mem_singleton.mpr rfl

theorem leftJoinSongs_fst_surj (events : List LogRecord) (songs : List SongRow)
    (e : LogRecord) (he : e ∈ events) :
    ∃ p, p ∈ leftJoinSongs events songs ∧ p.1 = e := by
  cases hms : songs.filter (fun s => decide (e.song = s.song_id)) with
  | nil => exact ⟨(e, none), leftJoinSongs_none_mem events songs e he hms, rfl⟩
  | cons m ms =>
    refine ⟨(e, some m), mem_concatMap.mpr ⟨e, he, ?_⟩, rfl⟩
    rw [hms]
    exact List.mem_map_of_mem _ (List.mem_cons_self _ _)

theorem length_numberFrom (idOf : Nat → Nat) :
    ∀ (i : Nat) (l : List (LogRecord × Option SongRow)),
      (numberFrom idOf i l).length = l.length := by
  intro i l
  induction l generalizing i with
  | nil => rfl
  | cons p ps ih => simp [numberFrom, ih]

theorem mem_numberFrom (idOf : Nat → Nat) :
    ∀ (i : Nat) (l : List (LogRecord × Option SongRow)) (r : SongplayRow),
      r ∈ numberFrom idOf i l → ∃ j p, p ∈ l ∧ r = mkSongplayRow (idOf j) p.1 p.2 := by
  intro i l
  induction l generalizing i with
  | nil => intro r h; exact absurd h (List.not_mem_nil r)
  | cons p ps ih =>
    intro r h
    rcases List.mem_cons.mp h with rfl | h
    · exact ⟨i, p, List.mem_cons_self _ _, rfl⟩
    · rcases ih (i + 1) r h with ⟨j, q, hq, hr⟩
      exact ⟨j, q, List.mem_cons_of_mem _ hq, hr⟩

theorem numberFrom_surj (idOf : Nat → Nat) :
    ∀ (i : Nat) (l : List (LogRecord × Option SongRow)) (p : LogRecord × Option SongRow),
      p ∈ l → ∃ j, mkSongplayRow (idOf j) p.1 p.2 ∈ numberFrom idOf i l := by
  intro i l
  induction l generalizing i with
  | nil => intro p h; exact absurd h (List.not_mem_nil p)
  | cons q qs ih =>
    intro p h
    rcases List.mem_cons.mp h with rfl | h
    · exact ⟨i, List.mem_cons_self _ _⟩
    · rcases ih (i + 1) p h with ⟨j, hj⟩
      exact ⟨j, List.mem_cons_of_mem _ hj⟩

theorem mem_songplaysCandidates (idOf : Nat → Nat) (events : List LogRecord)
    (songs : List SongRow) (r : SongplayRow)
    (h : r ∈ songplaysCandidates idOf events songs) :
    ∃ e, e ∈ events ∧ r.start_time = e.ts := by
  rcases mem_numberFrom idOf 0 _ r h with ⟨j, p, hp, rfl⟩
  exact ⟨p.1, (mem_leftJoinSongs events songs p hp).1, rfl⟩

theorem mem_innerJoinTime (cands : List SongplayRow) (trows : List TimeRow)
    (row : SongplayFinalRow) :
    row ∈ innerJoinTime cands trows ↔
      ∃ r, r ∈ cands ∧ ∃ t, t ∈ trows ∧ r.start_time = t.ts ∧ row = finalRow r t := by
  unfold innerJoinTime
  rw [mem_concatMap]
  constructor
  · rintro ⟨r, hr, hrow⟩
    rcases List.mem_map.mp hrow with ⟨t, ht, rfl⟩
    rw [List.mem_filter, decide_eq_true_eq] at ht
    exact ⟨r, hr, t, ht.1, ht.2, rfl⟩
  · rintro ⟨r, hr, t, ht, hts, rfl⟩
    exact ⟨r, hr, List.mem_map_of_mem _
      (List.mem_filter.mpr ⟨ht, decide_eq_true hts⟩)⟩

theorem length_innerJoinTime (cands : List SongplayRow) (trows : List TimeRow)
    (h : ∀ r, r ∈ cands →
      ((trows.filter (fun t => decide (r.start_time = t.ts))).length = 1)) :
    (innerJoinTime cands trows).length = cands.length := by
  induction cands with
  | nil => rfl
  | cons r rs ih =>
    simp only [innerJoinTime, concatMap, List.length_append, List.length_map] at *
    rw [h r (List.mem_cons_self _ _), ih (fun q hq => h q (List.mem_cons_of_mem _ hq))]
    simp [Nat.add_comm]

/-! ### Claim theorems -/

/-- C6: for all input catalog records, the Songs table contains no two rows
with identical (song_id, artist_id); every retained row is the projection
of some input record, and every input key pair is represented, so the
retained row among duplicates is some arbitrary input row with that key. -/
theorem c6_songs_unique_key (catalog : List SongRecord) :
    (songs_table catalog).Pairwise
      (fun a b => ¬ (a.song_id = b.song_id ∧ a.artist_id = b.artist_id)) ∧
    (∀ row, row ∈ songs_table catalog → ∃ r, r ∈ catalog ∧ row = projSongRow r) ∧
    (∀ r, r ∈ catalog → ∃ row, row ∈ songs_table catalog ∧
      row.song_id = r.song_id ∧ row.artist_id = r.artist_id) := by
  refine ⟨?_, ?_, ?_⟩
  · refine (pairwise_dedupBy _ _).imp ?_
    intro a b hk hc
    exact hk (by rw [hc.1, hc.2])
  · intro row hrow
    rcases List.mem_map.mp (mem_dedupBy _ _ _ hrow) with ⟨r, hr, hproj⟩
    exact ⟨r, hr, hproj.symm⟩
  · intro r hr
    rcases exists_key_dedupBy (fun s => (s.song_id, s.artist_id)) _ _
      (List.mem_map_of_mem projSongRow hr) with ⟨b, hb, hkb⟩
    rw [Prod.mk.injEq] at hkb
    exact ⟨b, hb, hkb.1, hkb.2⟩

/-- C6 witness: on the two-record duplicate-key catalog, the first key pair
("S", "A") is represented in the Songs table. -/
theorem c6_songs_unique_key_witness :
    ∃ row, row ∈ songs_table [dupSongA, dupSongB] ∧
      row.song_id = "S" ∧ row.artist_id = "A" := by
  have h := (c6_songs_unique_key [dupSongA, dupSongB]).2.2 dupSongA (by decide)
  simpa using h

/-- C7: the NextSong filter precedes the users projection, so every Users
row is the projection of some log record whose page is "NextSong", rows of
other pages contribute nothing, and deduplication by userId leaves exactly
one row per distinct userId among NextSong events. -/
theorem c7_users_one_per_userId (logs : List LogRecord) :
    (users_table logs).Pairwise (fun a b => a.userId ≠ b.userId) ∧
    (∀ u, u ∈ users_table logs →
      ∃ e, e ∈ logs ∧ e.page = "NextSong" ∧ u = projUserRow e) ∧
    (∀ e, e ∈ logs → e.page = "NextSong" →
      ∃ u, u ∈ users_table logs ∧ u.userId = e.userId) := by
  refine ⟨pairwise_dedupBy _ _, ?_, ?_⟩
  · intro u hu
    rcases List.mem_map.mp (mem_dedupBy _ _ _ hu) with ⟨e, he, hproj⟩
    simp only [nextSongEvents, List.mem_filter, decide_eq_true_eq] at he
    exact ⟨e, he.1, he.2, hproj.symm⟩
  · intro e he hpage
    have hmem : e ∈ nextSongEvents logs :=
      List.mem_filter.mpr ⟨he, decide_eq_true hpage⟩
    rcases exists_key_dedupBy (fun u => u.userId) _ _
      (List.mem_map_of_mem projUserRow hmem) with ⟨b, hb, hkb⟩
    exact ⟨b, hb, hkb⟩

/-- C7 witness: in the one-record scenario log, userId 8 gets a Users row. -/
theorem c7_users_one_per_userId_witness :
    ∃ u, u ∈ users_table [c1Log] ∧ u.userId = 8 := by
  have h := (c7_users_one_per_userId [c1Log]).2.2 c1Log (by decide) (by decide)
  simpa using h

/-- C4: the Time table has exactly one row per distinct ts among NextSong
events (uniqueness and completeness, the dedup acting on the bare ts values
before derivation), each row's datetime is the local-clock reading of
ts/1000 (kept in milliseconds), and the hour, year, month, week-of-year,
day-of-month and day-of-week-in-month columns are the calendar
decomposition of ts interpreted as epoch milliseconds. -/
theorem c4_time_one_row_per_ts (tz : Int) (logs : List LogRecord) :
    (time_table tz logs).Pairwise (fun a b => a.ts ≠ b.ts) ∧
    (∀ e, e ∈ nextSongEvents logs → ∃ row, row ∈ time_table tz logs ∧ row.ts = e.ts) ∧
    (∀ row, row ∈ time_table tz logs →
      (∃ e, e ∈ nextSongEvents logs ∧ e.ts = row.ts) ∧
      row.datetimeMs = row.ts + tz * 1000 ∧
      row.hour = hourOf tz row.ts ∧
      row.year = toString (yearOf tz row.ts) ∧
      row.month = toString (monthOf tz row.ts) ∧
      row.week = toString (weekOfYearOf tz row.ts) ∧
      row.day = toString (dayOf tz row.ts) ∧
      row.weekday = toString (dayOfWeekInMonthOf tz row.ts)) := by
  refine ⟨time_table_pairwise tz logs, time_table_complete tz logs, ?_⟩
  intro row hrow
  rcases mem_time_table_elim tz logs row hrow with ⟨he, heq⟩
  refine ⟨he, ?_⟩
  rw [heq]
  exact ⟨rfl, rfl, rfl, rfl, rfl, rfl, rfl⟩

/-- C4 witness: in the scenario log, ts 1541121934796 (at UTC) yields a
Time-table row. -/
theorem c4_time_one_row_per_ts_witness :
    ∃ row, row ∈ time_table 0 [c1Log] ∧ row.ts = 1541121934796 := by
  have h := (c4_time_one_row_per_ts 0 [c1Log]).2.1 c1Log (by decide)
  simpa using h

/-- C2: the fact assembly left-joins the NextSong-filtered events to the
Songs table on the predicate (log event's song text = Songs row's song_id):
every pair carries an event of the filtered set, a matched pair's song row
satisfies the predicate, an unmatched pair certifies no Songs row matches,
no event is dropped, and an event with no catalog match yields a candidate
row carrying null song_id and artist_id. -/
theorem c2_left_join_retains (catalog : List SongRecord) (logs : List LogRecord) :
    (∀ p, p ∈ leftJoinSongs (nextSongEvents logs) (songs_table catalog) →
      p.1 ∈ nextSongEvents logs ∧
      (∀ s, p.2 = some s → s ∈ songs_table catalog ∧ p.1.song = s.song_id) ∧
      (p.2 = none → ∀ s, s ∈ songs_table catalog → ¬ (p.1.song = s.song_id))) ∧
    (∀ e, e ∈ nextSongEvents logs →
      ∃ p, p ∈ leftJoinSongs (nextSongEvents logs) (songs_table catalog) ∧ p.1 = e) ∧
    (∀ idOf e, e ∈ nextSongEvents logs →
      (∀ s, s ∈ songs_table catalog → ¬ (e.song = s.song_id)) →
      ∃ r, r ∈ songplaysCandidates idOf (nextSongEvents logs) (songs_table catalog) ∧
        r.start_time = e.ts ∧ r.user_id = e.userId ∧
        r.song_id = none ∧ r.artist_id = none) := by
  refine ⟨?_, ?_, ?_⟩
  · intro p hp
    rcases mem_leftJoinSongs _ _ p hp with ⟨h1, h2, h3⟩
    exact ⟨h1, h3, h2⟩
  · exact fun e he => leftJoinSongs_fst_surj _ _ e he
  · intro idOf e he hno
    have hnil : (songs_table catalog).filter (fun s => decide (e.song = s.song_id)) = [] := by
      rw [List.filter_eq_nil_iff]
      intro s hs
      simp only [decide_eq_true_eq]
      exact hno s hs
    have hmem := leftJoinSongs_none_mem (nextSongEvents logs) (songs_table catalog) e he hnil
    rcases numberFrom_surj idOf 0 _ _ hmem with ⟨j, hj⟩
    exact ⟨mkSongplayRow (idOf j) e none, hj, rfl, rfl, rfl, rfl⟩

/-- C2 witness: in the end-to-end scenario, the event ("Song A" never
equals the catalog song_id "S1") is retained as a candidate with null
song_id and artist_id. -/
theorem c2_left_join_retains_witness :
    ∃ r, r ∈ songplaysCandidates (fun n => n) (nextSongEvents [c1Log]) (songs_table [c1Song]) ∧
      r.start_time = 1541121934796 ∧ r.user_id = 8 ∧
      r.song_id = none ∧ r.artist_id = none := by
  have h := (c2_left_join_retains [c1Song] [c1Log]).2.2 (fun n => n) c1Log
    (by decide) (by decide)
  simpa using h

/-- C5: every Songplays row comes from a NextSong event and its start_time
is present in the Time table; and, generically, every row the inner join of
line 148 emits arises from a candidate and a time row agreeing on
start_time = ts, so a candidate with no Time match contributes nothing. -/
theorem c5_songplays_subset_time (tz : Int) (idOf : Nat → Nat)
    (catalog : List SongRecord) (logs : List LogRecord) :
    (∀ row, row ∈ (pipeline tz idOf catalog logs).songplays →
      (∃ e, e ∈ logs ∧ e.page = "NextSong" ∧ row.start_time = e.ts) ∧
      (∃ t, t ∈ (pipeline tz idOf catalog logs).time ∧ t.ts = row.start_time)) ∧
    (∀ (cands : List SongplayRow) (trows : List TimeRow) row,
      row ∈ innerJoinTime cands trows →
      ∃ r, r ∈ cands ∧ ∃ t, t ∈ trows ∧ r.start_time = t.ts ∧ row = finalRow r t) := by
  constructor
  · intro row hrow
    rcases (mem_innerJoinTime _ _ row).mp hrow with ⟨r, hr, t, ht, hts, rfl⟩
    rcases mem_songplaysCandidates _ _ _ r hr with ⟨e, he, hre⟩
    simp only [nextSongEvents, List.mem_filter, decide_eq_true_eq] at he
    exact ⟨⟨e, he.1, he.2, hre⟩, ⟨t, ht, hts.symm⟩⟩
  · exact fun cands trows row hrow => (mem_innerJoinTime cands trows row).mp hrow

/-- C5 witness: in the end-to-end scenario the single Songplays row's
start_time is the event's ts, and that ts is in the Time table. -/
theorem c5_songplays_subset_time_witness :
    ∃ t, t ∈ (pipeline 0 (fun n => n) [c1Song] [c1Log]).time ∧ t.ts = 1541121934796 := by
  have hr : finalRow (mkSongplayRow 0 c1Log none) (mkTimeRow 0 1541121934796)
      ∈ (pipeline 0 (fun n => n) [c1Song] [c1Log]).songplays := by decide
  have h := ((c5_songplays_subset_time 0 (fun n => n) [c1Song] [c1Log]).1 _ hr).2
  exact h

/-- C9: the Time table is built from the distinct ts values of the same
NextSong-filtered event set that feeds the fact assembly, so every
candidate's start_time has a Time-table match and the inner join of line
148 drops nothing: the Songplays table has exactly as many rows as there
are candidates. -/
theorem c9_inner_join_drops_nothing (tz : Int) (idOf : Nat → Nat)
    (catalog : List SongRecord) (logs : List LogRecord) :
    (∀ r, r ∈ songplaysCandidates idOf (nextSongEvents logs) (songs_table catalog) →
      ∃ t, t ∈ time_table tz logs ∧ t.ts = r.start_time) ∧
    (pipeline tz idOf catalog logs).songplays.length
      = (songplaysCandidates idOf (nextSongEvents logs) (songs_table catalog)).length := by
  constructor
  · intro r hr
    rcases mem_songplaysCandidates _ _ _ r hr with ⟨e, he, hts⟩
    rcases time_table_complete tz logs e he with ⟨row, hrow, hr'⟩
    exact ⟨row, hrow, by rw [hr', hts]⟩
  · refine length_innerJoinTime _ _ ?_
    intro r hr
    rcases mem_songplaysCandidates _ _ _ r hr with ⟨e, he, hts⟩
    exact length_filter_time_table tz logs r.start_time ⟨e, he, hts.symm⟩

/-- C9 witness: in the end-to-end scenario the candidate's start_time has
a Time-table match, and the Songplays row count equals the candidate count. -/
theorem c9_inner_join_drops_nothing_witness :
    (∃ t, t ∈ time_table 0 [c1Log] ∧ t.ts = 1541121934796) ∧
    (pipeline 0 (fun n => n) [c1Song] [c1Log]).songplays.length
      = (songplaysCandidates (fun n => n) (nextSongEvents [c1Log]) (songs_table [c1Song])).length := by
  have h := c9_inner_join_drops_nothing 0 (fun n => n) [c1Song] [c1Log]
  have hr : mkSongplayRow 0 c1Log none
      ∈ songplaysCandidates (fun n => n) (nextSongEvents [c1Log]) (songs_table [c1Song]) := by
    decide
  exact ⟨h.1 _ hr, h.2⟩

/-- C10: the Time table's year, month, week, day and weekday columns are
string-valued (unpadded decimal renderings, as `date_format` yields), hour
is integer-valued, and the (year, month) partition columns attached to each
Songplays row are those strings, rendered from the row's own start_time. -/
theorem c10_partition_columns_are_strings (tz : Int) (idOf : Nat → Nat)
    (catalog : List SongRecord) (logs : List LogRecord) :
    (∀ trow, trow ∈ time_table tz logs →
      trow.hour = hourOf tz trow.ts ∧
      trow.year = toString (yearOf tz trow.ts) ∧
      trow.month = toString (monthOf tz trow.ts) ∧
      trow.week = toString (weekOfYearOf tz trow.ts) ∧
      trow.day = toString (dayOf tz trow.ts) ∧
      trow.weekday = toString (dayOfWeekInMonthOf tz trow.ts)) ∧
    (∀ row, row ∈ (pipeline tz idOf catalog logs).songplays →
      row.year = toString (yearOf tz row.start_time) ∧
      row.month = toString (monthOf tz row.start_time)) := by
  constructor
  · intro trow htrow
    rcases mem_time_table_elim tz logs trow htrow with ⟨_, heq⟩
    rw [heq]
    exact ⟨rfl, rfl, rfl, rfl, rfl, rfl⟩
  · intro row hrow
    rcases (mem_innerJoinTime _ _ row).mp hrow with ⟨r, _, t, ht, hts, rfl⟩
    rcases mem_time_table_elim tz logs t ht with ⟨_, heq⟩
    constructor
    · show t.year = toString (yearOf tz r.start_time)
      rw [hts, heq]
      rfl
    · show t.month = toString (monthOf tz r.start_time)
      rw [hts, heq]
      rfl

/-- C10 witness: in the end-to-end scenario (UTC), the Time row's year is
the string "2018" and the Songplays row's month the string "11". -/
theorem c10_partition_columns_are_strings_witness :
    ∃ trow, trow ∈ time_table 0 [c1Log] ∧ trow.year = toString (yearOf 0 trow.ts) := by
  have ht : mkTimeRow 0 1541121934796 ∈ time_table 0 [c1Log] := by decide
  exact ⟨_, ht, ((c10_partition_columns_are_strings 0 (fun n => n) [c1Song] [c1Log]).1
    _ ht).2.1⟩

theorem sum_map_ones (f : α → Nat) :
    ∀ l : List α, (∀ e, e ∈ l → f e = 1) → (l.map f).sum = l.length := by
  intro l
  induction l with
  | nil => intro _; rfl
  | cons x xs ih =>
    intro h
    simp only [List.map_cons, List.sum_cons, List.length_cons,
      h x (List.mem_cons_self _ _), ih (fun e he => h e (List.mem_cons_of_mem _ he))]
    omega

/-- C3 counterexample: with two catalog records sharing song_id "S" under
different artists (both survive the (song_id, artist_id) dedup) and one
NextSong event whose song text is "S", the left join matches both rows and
the Songplays table has two rows for the single qualifying event. -/
theorem c3_counterexample :
    (nextSongEvents [dupLog]).length = 1 ∧
    (pipeline 0 (fun n => n) [dupSongA, dupSongB] [dupLog]).songplays.length = 2 ∧
    ¬ ((pipeline 0 (fun n => n) [dupSongA, dupSongB] [dupLog]).songplays.length
        = (nextSongEvents [dupLog]).length) := by decide

/-- C3 (amended): the joins drop no qualifying event, but the left join
emits one row per (event, matching Songs row) pair — the Songplays table
has, for each NextSong event, max 1 (number of Songs rows whose song_id
equals the event's song text) rows; it is one row per event exactly when
every event matches at most one Songs row. -/
theorem c3_one_row_per_event_amended (tz : Int) (idOf : Nat → Nat)
    (catalog : List SongRecord) (logs : List LogRecord) :
    (pipeline tz idOf catalog logs).songplays.length
      = ((nextSongEvents logs).map (fun e =>
          max 1 (((songs_table catalog).filter
            (fun s => decide (e.song = s.song_id))).length))).sum ∧
    ((∀ e, e ∈ nextSongEvents logs →
        ((songs_table catalog).filter (fun s => decide (e.song = s.song_id))).length ≤ 1) →
      (pipeline tz idOf catalog logs).songplays.length = (nextSongEvents logs).length) := by
  have hlen : (pipeline tz idOf catalog logs).songplays.length
      = (songplaysCandidates idOf (nextSongEvents logs) (songs_table catalog)).length := by
    refine length_innerJoinTime _ _ ?_
    intro r hr
    rcases mem_songplaysCandidates _ _ _ r hr with ⟨e, he, hts⟩
    exact length_filter_time_table tz logs r.start_time ⟨e, he, hts.symm⟩
  have hsum : (songplaysCandidates idOf (nextSongEvents logs) (songs_table catalog)).length
      = ((nextSongEvents logs).map (fun e =>
          max 1 (((songs_table catalog).filter
            (fun s => decide (e.song = s.song_id))).length))).sum := by
    unfold songplaysCandidates
    rw [length_numberFrom, length_leftJoinSongs]
  constructor
  · rw [hlen, hsum]
  · intro hb
    rw [hlen, hsum]
    refine sum_map_ones _ _ ?_
    intro e he
    have := hb e he
    omega

/-- C3 witness: in the end-to-end scenario every event matches at most one
Songs row (in fact none), so Songplays has one row per NextSong event. -/
theorem c3_one_row_per_event_amended_witness :
    (pipeline 0 (fun n => n) [c1Song] [c1Log]).songplays.length
      = (nextSongEvents [c1Log]).length := by
  exact (c3_one_row_per_event_amended 0 (fun n => n) [c1Song] [c1Log]).2 (by decide)

/-- C1 counterexample: on exactly the claimed catalog and log records the
pipeline gives Songs, Artists, Users and Time one row each, but the
Songplays table has one row, not zero: the left join retains the unmatched
event with null keys and the time join keeps it. -/
theorem c1_counterexample :
    (pipeline 0 (fun n => n) [c1Song] [c1Log]).songs.length = 1 ∧
    (pipeline 0 (fun n => n) [c1Song] [c1Log]).artists.length = 1 ∧
    (pipeline 0 (fun n => n) [c1Song] [c1Log]).users.length = 1 ∧
    (pipeline 0 (fun n => n) [c1Song] [c1Log]).time.length = 1 ∧
    ¬ ((pipeline 0 (fun n => n) [c1Song] [c1Log]).songplays.length = 0) := by decide

theorem c1_year_month (tz : Int) (h1 : -50400 ≤ tz) (h2 : tz ≤ 50400) :
    yearOf tz 1541121934796 = 2018 ∧ monthOf tz 1541121934796 = 11 := by
  have hms : Int.ediv (1541121934796 : Int) 1000 = 1541121934 := by decide
  have hd : epochDay tz 1541121934796 = 17836 ∨ epochDay tz 1541121934796 = 17837 := by
    unfold epochDay localSecs
    rw [hms]
    have ha : 86400 * Int.ediv (1541121934 + tz) 86400
        + Int.emod (1541121934 + tz) 86400 = 1541121934 + tz :=
      Int.ediv_add_emod _ _
    have hb : 0 ≤ Int.emod (1541121934 + tz) 86400 :=
      Int.emod_nonneg _ (by decide)
    have hc : Int.emod (1541121934 + tz) 86400 < 86400 :=
      Int.emod_lt_of_pos _ (by decide)
    omega
  unfold yearOf monthOf
  rcases hd with h | h <;> rw [h] <;> exact ⟨by decide, by decide⟩

/-- C1 (amended): for the scenario catalog and log record, and any timezone
offset within the civil range (±14h) and any id assignment, the pipeline
gives Songs, Artists and Users one row each, a Time table with exactly one
row whose year is "2018" and month "11", and a Songplays table with exactly
one row — carrying null song_id and artist_id, because the line-139 join
predicate ("Song A" = "S1") never matches but the left join retains the
event. -/
theorem c1_end_to_end_amended (tz : Int) (h1 : -50400 ≤ tz) (h2 : tz ≤ 50400)
    (idOf : Nat → Nat) :
    (pipeline tz idOf [c1Song] [c1Log]).songs.length = 1 ∧
    (pipeline tz idOf [c1Song] [c1Log]).artists.length = 1 ∧
    (pipeline tz idOf [c1Song] [c1Log]).users.length = 1 ∧
    (pipeline tz idOf [c1Song] [c1Log]).time = [mkTimeRow tz 1541121934796] ∧
    (mkTimeRow tz 1541121934796).year = "2018" ∧
    (mkTimeRow tz 1541121934796).month = "11" ∧
    (pipeline tz idOf [c1Song] [c1Log]).songplays
      = [finalRow (mkSongplayRow (idOf 0) c1Log none) (mkTimeRow tz 1541121934796)] ∧
    (finalRow (mkSongplayRow (idOf 0) c1Log none) (mkTimeRow tz 1541121934796)).song_id
      = none ∧
    (finalRow (mkSongplayRow (idOf 0) c1Log none) (mkTimeRow tz 1541121934796)).artist_id
      = none := by
  obtain ⟨hy, hm⟩ := c1_year_month tz h1 h2
  refine ⟨rfl, rfl, rfl, rfl, ?_, ?_, rfl, rfl, rfl⟩
  · show toString (yearOf tz 1541121934796) = "2018"
    rw [hy]
    rfl
  · show toString (monthOf tz 1541121934796) = "11"
    rw [hm]
    rfl

/-- C1 witness: the amended end-to-end theorem instantiated at UTC with the
identity id assignment. -/
theorem c1_end_to_end_amended_witness :
    (pipeline 0 (fun n => n) [c1Song] [c1Log]).time = [mkTimeRow 0 1541121934796] ∧
    (mkTimeRow 0 1541121934796).year = "2018" ∧
    (mkTimeRow 0 1541121934796).month = "11" ∧
    (pipeline 0 (fun n => n) [c1Song] [c1Log]).songplays
      = [finalRow (mkSongplayRow 0 c1Log none) (mkTimeRow 0 1541121934796)] := by
  have h := c1_end_to_end_amended 0 (by decide) (by decide) (fun n => n)
  exact ⟨h.2.2.2.1, h.2.2.2.2.1, h.2.2.2.2.2.1, h.2.2.2.2.2.2.1⟩

theorem map_candCore_numberFrom (idOf : Nat → Nat) :
    ∀ (i : Nat) (l : List (LogRecord × Option SongRow)),
      (numberFrom idOf i l).map candCore
        = l.map (fun p => candCore (mkSongplayRow 0 p.1 p.2)) := by
  intro i l
  induction l generalizing i with
  | nil => rfl
  | cons p ps ih =>
    simp only [numberFrom, List.map_cons, ih]
    rfl

theorem map_dropId_innerJoinTime (trows : List TimeRow) :
    ∀ (l1 l2 : List SongplayRow), l1.map candCore = l2.map candCore →
      (innerJoinTime l1 trows).map dropId = (innerJoinTime l2 trows).map dropId := by
  intro l1
  induction l1 with
  | nil =>
    intro l2 h
    cases l2 with
    | nil => rfl
    | cons x xs => simp at h
  | cons r1 rs1 ih =>
    intro l2 h
    cases l2 with
    | nil => simp at h
    | cons r2 rs2 =>
      simp only [List.map_cons, List.cons.injEq] at h
      obtain ⟨hc, hrest⟩ := h
      have hst : r1.start_time = r2.start_time := congrArg CandCore.start_time hc
      have htail := ih rs2 hrest
      show ((trows.filter (fun t => decide (r1.start_time = t.ts))).map (finalRow r1)
            ++ innerJoinTime rs1 trows).map dropId
          = ((trows.filter (fun t => decide (r2.start_time = t.ts))).map (finalRow r2)
            ++ innerJoinTime rs2 trows).map dropId
      rw [List.map_append, List.map_append, htail, ← hst]
      congr 1
      rw [List.map_map, List.map_map]
      refine List.map_congr_left ?_
      intro t _
      show dropId (finalRow r1 t) = dropId (finalRow r2 t)
      have h2 : r1.user_id = r2.user_id := congrArg CandCore.user_id hc
      have h3 : r1.level = r2.level := congrArg CandCore.level hc
      have h4 : r1.song_id = r2.song_id := congrArg CandCore.song_id hc
      have h5 : r1.artist_id = r2.artist_id := congrArg CandCore.artist_id hc
      have h6 : r1.session_id = r2.session_id := congrArg CandCore.session_id hc
      have h7 : r1.location = r2.location := congrArg CandCore.location hc
      have h8 : r1.user_agent = r2.user_agent := congrArg CandCore.user_agent hc
      simp [dropId, finalRow, hst, h2, h3, h4, h5, h6, h7, h8]

/-- C8 counterexample: `monotonically_increasing_id` is not stable across
runs, so two runs over identical inputs may use different (both strictly
monotone) id assignments; on the scenario inputs the two runs' outputs are
not identical — the songplay_id differs. -/
theorem c8_counterexample :
    StrictMono (fun n : Nat => n) ∧ StrictMono (fun n : Nat => n + 1) ∧
    ¬ (pipeline 0 (fun n => n) [c1Song] [c1Log]
        = pipeline 0 (fun n => n + 1) [c1Song] [c1Log]) := by
  refine ⟨fun _ _ h => h, fun _ _ h => Nat.add_lt_add_right h 1, by decide⟩

/-- C8 (amended): re-running the pipeline on identical inputs reproduces
the Songs, Artists, Users and Time tables exactly, and the Songplays table
exactly up to the synthetic songplay_id values: the output is a
deterministic function of the inputs and the engine's id assignment, with
full-overwrite semantics and no accumulation. -/
theorem c8_deterministic_up_to_ids (tz : Int) (f g : Nat → Nat)
    (catalog : List SongRecord) (logs : List LogRecord) :
    (pipeline tz f catalog logs).songs = (pipeline tz g catalog logs).songs ∧
    (pipeline tz f catalog logs).artists = (pipeline tz g catalog logs).artists ∧
    (pipeline tz f catalog logs).users = (pipeline tz g catalog logs).users ∧
    (pipeline tz f catalog logs).time = (pipeline tz g catalog logs).time ∧
    (pipeline tz f catalog logs).songplays.map dropId
      = (pipeline tz g catalog logs).songplays.map dropId := by
  refine ⟨rfl, rfl, rfl, rfl, ?_⟩
  apply map_dropId_innerJoinTime
  show (numberFrom f 0 _).map candCore = (numberFrom g 0 _).map candCore
  rw [map_candCore_numberFrom, map_candCore_numberFrom]

end DataLake
